import Mathlib

/-!
Verification of the agentless-lite patch pipeline.

The development shallowly embeds the text-processing core of the repository:
`apply_patch_directly`, `parse_patch_hunks` and the per-fix loop of
`validate_fixes` (fix_validation.py), `extract_relevant_sections`
(utils.py and grain.py), `create_file_skeleton` (utils.py / skel.py),
`read_file_content` (utils.py) and the parsing loop of
`locate_specific_lines` (bug_localization.py).

Text is modelled as `List Char`; Python strings are translated operation by
operation (`strip`, `split`, `splitlines`, `replace`, `index`, `rjust`, …).
Filesystem reads are modelled by finite association lists from paths to file
data, and Python's `ast` module output is modelled by the sequence of nodes
the tree walk yields, each carrying its kind, `lineno` and `end_lineno`.
-/

set_option autoImplicit false

namespace AgentlessLite

/-- Text is a list of characters, as Python strings are sequences. -/
abbrev Str := List Char

/-- Convert a Lean string literal to the character-list model. -/
def chars (s : String) : Str := s.data

/-- The whitespace characters stripped by Python's `str.strip()`. -/
def isPySpace (c : Char) : Bool :=
  c = ' ' || c = '\t' || c = '\n' || c = '\r' || c = '\x0b' || c = '\x0c'

/-- Python `s.lstrip()`. -/
def pyLStrip (s : Str) : Str := s.dropWhile isPySpace

/-- Python `s.strip()`: drop leading and trailing whitespace. -/
def pyStrip (s : Str) : Str :=
  ((s.dropWhile isPySpace).reverse.dropWhile isPySpace).reverse

/-- Boolean prefix test (Python `s.startswith(p)` with needle first). -/
def isPfx : Str → Str → Bool
  | [], _ => true
  | _ :: _, [] => false
  | a :: as, b :: bs => a = b && isPfx as bs

/-- Python `haystack.index(needle)` / `needle in haystack`: index of the
first occurrence of `needle` as a contiguous substring. -/
def firstIndexOf (hay needle : Str) : Option Nat :=
  (List.range (hay.length + 1)).find? (fun i => isPfx needle (hay.drop i))

/-- Python `needle in haystack`. -/
def containsSub (hay needle : Str) : Bool := (firstIndexOf hay needle).isSome

/-- Python `''.join(pieces)`. -/
def pyJoin (pieces : List Str) : Str := pieces.foldr (· ++ ·) []

/-- Python `'\n'.join(rows)`. -/
def joinNl : List Str → Str
  | [] => []
  | [r] => r
  | r :: rs => r ++ '\n' :: joinNl rs

/-- Python `s.split(c)` for a single separator character. -/
def pySplitChar (sep : Char) : Str → List Str
  | [] => [[]]
  | c :: rest =>
    match pySplitChar sep rest with
    | [] => if c = sep then [[], []] else [[c]]
    | h :: t => if c = sep then [] :: h :: t else (c :: h) :: t

/-- Python `s.splitlines(keepends=True)`, for newline-delimited text. -/
def pySplitlinesKeep : Str → List Str
  | [] => []
  | c :: rest =>
    if c = '\n' then ['\n'] :: pySplitlinesKeep rest
    else
      match pySplitlinesKeep rest with
      | [] => [[c]]
      | h :: t => (c :: h) :: t

/-- Drop one trailing newline from a line, if present. -/
def dropTrailNl (l : Str) : Str :=
  if l.getLast? = some '\n' then l.dropLast else l

/-- Python `s.splitlines()` (no kept ends), for newline-delimited text. -/
def pySplitlines (s : Str) : List Str := (pySplitlinesKeep s).map dropTrailNl

/-- Worker for `pySplitSub`; the fuel is an upper bound on the number of
characters still to be consumed. -/
def pySplitSubGo (sep : Str) : Nat → Str → List Str
  | _, [] => [[]]
  | 0, s => [s]
  | fuel + 1, c :: rest =>
    if isPfx sep (c :: rest) then
      [] :: pySplitSubGo sep fuel ((c :: rest).drop sep.length)
    else
      match pySplitSubGo sep fuel rest with
      | [] => [[c]]
      | h :: t => (c :: h) :: t

/-- Python `s.split(sep)` for a non-empty multi-character separator. -/
def pySplitSub (s sep : Str) : List Str := pySplitSubGo sep s.length s

/-- Python `s.split(sep, 1)`: split at the first occurrence only. -/
def pySplitSub1 (s sep : Str) : List Str :=
  match firstIndexOf s sep with
  | none => [s]
  | some i => [s.take i, s.drop (i + sep.length)]

/-- Worker for `pyReplace` for a non-empty needle; fuel bounds the length
of the text still to scan. -/
def pyReplaceGo (old new : Str) : Nat → Str → Str
  | _, [] => []
  | 0, s => s
  | fuel + 1, c :: rest =>
    if isPfx old (c :: rest) then
      new ++ pyReplaceGo old new fuel ((c :: rest).drop old.length)
    else
      c :: pyReplaceGo old new fuel rest

/-- Python `s.replace(old, new)`: replace every occurrence. -/
def pyReplace (s old new : Str) : Str :=
  if old = [] then new ++ s.flatMap (fun c => c :: new)
  else pyReplaceGo old new s.length s

/-- Count newline characters (Python `s.count('\n')`). -/
def countNl (s : Str) : Nat := s.countP (fun c => c = '\n')

/-- Decimal digit test. -/
def isDigitCh (c : Char) : Bool := '0' ≤ c && c ≤ '9'

/-- Numeric value of a digit string. -/
def digitsVal (ds : Str) : Nat := ds.foldl (fun a c => a * 10 + (c.toNat - 48)) 0

/-- Worker for `natChars`. -/
def natCharsGo : Nat → Nat → Str
  | 0, _ => []
  | fuel + 1, n =>
    if n < 10 then [Char.ofNat (48 + n)]
    else natCharsGo fuel (n / 10) ++ [Char.ofNat (48 + n % 10)]

/-- Python `str(n)` for a natural number. -/
def natChars (n : Nat) : Str := natCharsGo (n + 1) n

/-- Python `s.rjust(w)` (pad on the left with spaces). -/
def pyRjust (s : Str) (w : Nat) : Str := List.replicate (w - s.length) ' ' ++ s

/-!
## Patch application: `apply_patch_directly` (fix_validation.py, lines 85-139)

A hunk as produced by `parse_patch_hunks`: optional 1-based start line from
the `(line X-Y)` annotation, and the collected old/new lines (each stored
with a trailing newline, as the parser appends `line + '\n'`).
-/

structure Hunk where
  start : Option Nat
  old : List Str
  new : List Str
  deriving DecidableEq, Repr

/-- The window scan loop shared by `apply_patch_directly` and
`validate_fixes`: try indices `i, i+1, …` (`count` of them); at each, compare
the stripped join of the `n`-line slice starting there with `search`;
return the first index that matches. -/
def scanWindow (lines : List Str) (n : Nat) (search : Str) : Nat → Nat → Option Nat
  | _, 0 => none
  | i, count + 1 =>
    if pyStrip (pyJoin ((lines.drop i).take n)) = search then some i
    else scanWindow lines n search (i + 1) count

/-- The hinted window search of `apply_patch_directly`: 0-based candidate
index `start = hintStart - 1`, window `[start-2, min(len, start+n+2))`,
scanning every `n`-sized slice (`for i in range(window_start,
window_end - len(old) + 1)`). -/
def hintedFind (lines : List Str) (hintStart : Nat) (old : List Str) : Option Nat :=
  let start : Int := (hintStart : Int) - 1
  let search := pyStrip (pyJoin old)
  let ws : Int := max 0 (start - 2)
  let we : Int := min (lines.length : Int) (start + old.length + 2)
  scanWindow lines old.length search ws.toNat (we - old.length + 1 - ws).toNat

/-- Apply a single hunk to the file's lines, as the body of the hunk loop in
`apply_patch_directly`: hinted window search when `start` is present
(returning failure if it finds nothing — no fallback), whole-file substring
search via `file_content.index` otherwise. -/
def applyHunk (lines : List Str) (h : Hunk) : Option (List Str) :=
  match h.start with
  | some s =>
    match hintedFind lines s h.old with
    | some i => some (lines.take i ++ h.new ++ lines.drop (i + h.old.length))
    | none => none
  | none =>
    let search := pyStrip (pyJoin h.old)
    match firstIndexOf (pyJoin lines) search with
    | some pos =>
      let start := countNl ((pyJoin lines).take pos)
      some (lines.take start ++ h.new ++ lines.drop (start + h.old.length))
    | none => none

/-- `apply_patch_directly`: apply the hunks in order to the file's lines;
any failing hunk makes the whole call fail (Python returns `False` before
writing the file). -/
def apply_patch_directly (lines : List Str) (hunks : List Hunk) : Option (List Str) :=
  hunks.foldl (fun acc h => acc.bind (fun ls => applyHunk ls h)) (some lines)

/-!
## Patch block parsing: `parse_patch_hunks` (fix_validation.py, lines 141-185)
-/

/-- Try to match the regex `\(line (\d+)-(\d+)\)` at the front of `t`,
returning the first captured number. -/
def matchLinePat (t : Str) : Option Nat :=
  if isPfx (chars "(line ") t then
    let r := t.drop 6
    let d1 := r.takeWhile isDigitCh
    if d1 = [] then none
    else
      match r.dropWhile isDigitCh with
      | '-' :: r2 =>
        let d2 := r2.takeWhile isDigitCh
        if d2 = [] then none
        else
          match r2.dropWhile isDigitCh with
          | ')' :: _ => some (digitsVal d1)
          | _ => none
      | _ => none
  else none

/-- `re.search(r'\(line (\d+)-(\d+)\)', line)`: leftmost match wins. -/
def searchLinePat : Str → Option Nat
  | [] => none
  | t@(_ :: rest) =>
    match matchLinePat t with
    | some v => some v
    | none => searchLinePat rest

/-- The mutable state of the `parse_patch_hunks` loop.  `err` records a
Python `KeyError` (a hunk completed while no `### ` header has been seen). -/
structure PState where
  files : List (Str × List Hunk)
  currentFile : Option Str
  currentHunk : Option Hunk
  inOld : Bool
  err : Bool
  deriving Repr

/-- Insertion-order dict update `files[k] = v`. -/
def setKey (m : List (Str × List Hunk)) (k : Str) (v : List Hunk) : List (Str × List Hunk) :=
  match m with
  | [] => [(k, v)]
  | (a, b) :: t => if a = k then (k, v) :: t else (a, b) :: setKey t k v

/-- Dict membership. -/
def hasKey (m : List (Str × List Hunk)) (k : Str) : Bool :=
  m.any (fun p => decide (p.1 = k))

/-- `files[k].append(h)`. -/
def appendHunk (m : List (Str × List Hunk)) (k : Str) (h : Hunk) : List (Str × List Hunk) :=
  match m with
  | [] => []
  | (a, b) :: t => if a = k then (a, b ++ [h]) :: t else (a, b) :: appendHunk t k h

/-- One iteration of the line loop of `parse_patch_hunks`. -/
def ppLine (st : PState) (line : Str) : PState :=
  if isPfx (chars "### ") line then
    let f := pyStrip (line.drop 4)
    { st with currentFile := some f, files := setKey st.files f [] }
  else if containsSub line (chars "<<<<<<< SEARCH") then
    { st with currentHunk := some ⟨searchLinePat line, [], []⟩, inOld := true }
  else if line = chars "=======" ∧ st.currentHunk.isSome then
    { st with inOld := false }
  else if isPfx (chars ">>>>>>> REPLACE") line then
    match st.currentHunk with
    | some h =>
      match st.currentFile with
      | some f =>
        if hasKey st.files f then
          { st with files := appendHunk st.files f h, currentHunk := none }
        else { st with err := true, currentHunk := none }
      | none => { st with err := true, currentHunk := none }
    | none => { st with currentHunk := none }
  else
    match st.currentHunk with
    | some h =>
      if pyStrip line = [] then st
      else if st.inOld then
        { st with currentHunk := some { h with old := h.old ++ [line ++ ['\n']] } }
      else
        { st with currentHunk := some { h with new := h.new ++ [line ++ ['\n']] } }
    | none => st

/-- Process one fenced block: split it on `'\n'` and run the line loop. -/
def ppBlock (st : PState) (block : Str) : PState :=
  (pySplitChar '\n' block).foldl ppLine st

/-- `parse_patch_hunks`: split the response on the fence marker, skip blank
blocks, and run the stateful line loop over each; the parsed dict is the
`files` field of the final state. -/
def parse_patch_hunks (content : Str) : PState :=
  ((pySplitSub content (chars "```python")).filter (fun b => decide (pyStrip b ≠ []))).foldl
    ppBlock ⟨[], none, none, false, false⟩

/-!
## Fix validation: the per-fix loop of `validate_fixes`
(fix_validation.py, lines 202-253)
-/

/-- A fix record as consumed by `validate_fixes`: `search`/`replace` text and
the optional `line_number` key (`none` models both an absent key and
`None`; `some 0` is falsy in Python and is treated like an absent hint). -/
structure Fix where
  search : Str
  replace : Str
  lineNumber : Option Nat
  deriving DecidableEq, Repr

/-- The whole-file branch of the fix loop: `search_content in current_content`
then `current_content.replace(search, replace)` re-split into lines. -/
def validateFallback (lines : List Str) (search repl : Str) : List Str × Nat :=
  let content := pyJoin lines
  if containsSub content search then
    (pySplitlinesKeep (pyReplace content search repl), 1)
  else (lines, 0)

/-- One iteration of the fix loop of `validate_fixes`, abstracting the file
as its `readlines()` result; returns the lines written back and the score.
With a truthy `line_number`, the window `[start-2, min(len, start+n+2))` is
scanned index by index (`for i in range(window_start, window_end)`) and the
matched slice is replaced by `replace_content.splitlines(True)`. -/
def validateFix (lines : List Str) (fx : Fix) : List Str × Nat :=
  let search := pyStrip fx.search
  let repl := pyStrip fx.replace
  match fx.lineNumber with
  | some ln =>
    if ln = 0 then validateFallback lines search repl
    else
      let start := ln - 1
      let n := (pySplitlines search).length
      let ws := start - 2
      let we := min lines.length (start + n + 2)
      match scanWindow lines n search ws (we - ws) with
      | some i => (lines.take i ++ pySplitlinesKeep repl ++ lines.drop (i + n), 1)
      | none => (lines, 0)
  | none => validateFallback lines search repl

/-!
## Symbol location: `extract_relevant_sections` (utils.py, lines 129-246,
and the grain.py variant, lines 7-81)

Python's `ast.parse`/`ast.walk` cannot be embedded; instead a parsed file is
modelled by the node sequence that `ast.walk(tree)` yields, in walk order,
each node carrying its kind (with the data the locator inspects: the `name`
of a definition, the `Name` targets of an assignment) and its 1-based
`lineno`/`end_lineno` span.
-/

/-- The node kinds `extract_relevant_sections` discriminates.  An `assign`
target is `some id` when the target is an `ast.Name`, `none` otherwise;
an `annAssign` target likewise. -/
inductive PyKind where
  | functionDef (name : Str)
  | asyncFunctionDef (name : Str)
  | classDef (name : Str)
  | assign (targets : List (Option Str))
  | annAssign (target : Option Str)
  | other
  deriving DecidableEq, Repr

/-- One node of the walk sequence. -/
structure PyNode where
  kind : PyKind
  lineno : Nat
  endLineno : Nat
  deriving DecidableEq, Repr

/-- A source file together with its walk sequence. -/
structure PyFile where
  lines : List Str
  walk : List PyNode
  deriving Repr

/-- An element descriptor (`element['type']`, `element['name']`). -/
inductive Element where
  | func (name : Str)
  | cls (name : Str)
  | var (name : Str)
  deriving DecidableEq, Repr

/-- The 40-dash delimiter row. -/
def dashes : Str := List.replicate 40 '-'

/-- Clamp a node's span by the context window: 0-based start
`max(0, lineno - 1 - W)` and exclusive end `min(len, end_lineno + W)`,
returning the corresponding line slice. -/
def spanSlice (lines : List Str) (nd : PyNode) (w : Nat) : List Str :=
  let start := nd.lineno - 1 - w
  let e := min lines.length (nd.endLineno + w)
  (lines.drop start).take (e - start)

/-- Does a node match a `function` element (both `ast.FunctionDef` and
`ast.AsyncFunctionDef`, exact name)? -/
def matchesFunc (name : Str) (nd : PyNode) : Bool :=
  match nd.kind with
  | .functionDef n => decide (n = name)
  | .asyncFunctionDef n => decide (n = name)
  | _ => false

/-- Does a node match a `class` element? -/
def matchesClass (name : Str) (nd : PyNode) : Bool :=
  match nd.kind with
  | .classDef n => decide (n = name)
  | _ => false

/-- The function branch of utils.py `extract_relevant_sections`: first
matching node in walk order, wrapped in the labeled header and the dashed
delimiters, joined by newline. -/
def extractFuncUtils (lines : List Str) (walk : List PyNode) (name : Str) (w : Nat) : List Str :=
  match walk.find? (matchesFunc name) with
  | some nd =>
    [joinNl ((chars "=== Function: " ++ name ++ chars " ===") :: dashes ::
      (spanSlice lines nd w ++ [dashes]))]
  | none => []

/-- The class branch of utils.py `extract_relevant_sections`. -/
def extractClassUtils (lines : List Str) (walk : List PyNode) (name : Str) (w : Nat) : List Str :=
  match walk.find? (matchesClass name) with
  | some nd =>
    [joinNl ((chars "=== Class: " ++ name ++ chars " ===") :: dashes ::
      (spanSlice lines nd w ++ [dashes]))]
  | none => []

/-- The variable branch of utils.py `extract_relevant_sections`.  `acc` is
the `section_content` list, which the source initialises once per element
and never resets between matching nodes: each plain-assignment match
appends its four rows to `acc` and emits the join of the whole accumulated
list; a matching annotated assignment does the same and stops the walk
(its `break` leaves the node loop, a plain assignment's `break` only
leaves the inner target loop). -/
def extractVarUtils (lines : List Str) (name : Str) (w : Nat) :
    List PyNode → List Str → List Str
  | [], _ => []
  | nd :: rest, acc =>
    match nd.kind with
    | .assign targets =>
      if targets.any (fun t => decide (t = some name)) then
        let acc2 := acc ++ (chars "=== Variable: " ++ name ++ chars " ===") :: dashes ::
          (spanSlice lines nd w ++ [dashes])
        joinNl acc2 :: extractVarUtils lines name w rest acc2
      else extractVarUtils lines name w rest acc
    | .annAssign (some t) =>
      if t = name then
        let acc2 := acc ++ (chars "=== Variable: " ++ name ++ chars " ===") :: dashes ::
          (spanSlice lines nd w ++ [dashes])
        [joinNl acc2]
      else extractVarUtils lines name w rest acc
    | _ => extractVarUtils lines name w rest acc

/-- utils.py `extract_relevant_sections` over an already-read, already-parsed
file: iterate the elements, appending each element's sections. -/
def extract_relevant_sections (f : PyFile) (elements : List Element) (w : Nat) : List Str :=
  elements.foldl
    (fun secs el =>
      match el with
      | .func name => secs ++ extractFuncUtils f.lines f.walk name w
      | .cls name => secs ++ extractClassUtils f.lines f.walk name w
      | .var name => secs ++ extractVarUtils f.lines name w f.walk [])
    []

/-- Does a node match a `function` element in grain.py (only
`ast.FunctionDef`; the grain variant does not match async functions)? -/
def matchesFuncGrain (name : Str) (nd : PyNode) : Bool :=
  match nd.kind with
  | .functionDef n => decide (n = name)
  | _ => false

/-- The function branch of grain.py `extract_relevant_sections`: the bare
clamped slice joined by newline, with no header or delimiters. -/
def extractFuncGrain (lines : List Str) (walk : List PyNode) (name : Str) (w : Nat) : List Str :=
  match walk.find? (matchesFuncGrain name) with
  | some nd => [joinNl (spanSlice lines nd w)]
  | none => []

/-!
## Skeletonizer: `create_file_skeleton` (utils.py, lines 19-77; skel.py is
an identical copy)
-/

/-- Retention test 1: the stripped line contains a definition keyword. -/
def isDefLine (stripped : Str) : Bool :=
  containsSub stripped (chars "class ") || containsSub stripped (chars "def ") ||
    containsSub stripped (chars "async def ")

/-- Retention test 2: a zero-indentation binding whose left-hand side of the
first `=` contains a declaration keyword or container annotation. -/
def isDeclLine (line stripped : Str) : Bool :=
  let lhs := (pySplitChar '=' stripped).headI
  decide (line.length - (pyLStrip line).length = 0) &&
    (containsSub lhs (chars "var") || containsSub lhs (chars "let") ||
     containsSub lhs (chars "const") || containsSub lhs (chars ": Dict") ||
     containsSub lhs (chars ": List") || containsSub lhs (chars ": Set"))

/-- Retention test 3: the stripped line contains an import marker. -/
def isImportLine (stripped : Str) : Bool :=
  containsSub stripped (chars "import ") || containsSub stripped (chars "from ")

/-- Render one retained row: the original line, or `NN |line` with the
right-justified original line number when numbering is on. -/
def skelRow (lineNumbers : Bool) (w n : Nat) (line : Str) : Str :=
  if lineNumbers then pyRjust (natChars n) w ++ ' ' :: '|' :: line else line

/-- The ellipsis row (space-padded to the numbering column when numbering
is on). -/
def skelGap (lineNumbers : Bool) (w : Nat) : Str :=
  if lineNumbers then chars "..." ++ List.replicate w ' ' else chars "..."

/-- Emit a retained line: an ellipsis row first when the previously retained
line is not adjacent, then the rendered row. -/
def skelEmit (lineNumbers : Bool) (w cur last : Nat) (line : Str) : List Str :=
  if last ≠ 0 ∧ cur - last > 1 then [skelGap lineNumbers w, skelRow lineNumbers w cur line]
  else [skelRow lineNumbers w cur line]

/-- The line loop of `create_file_skeleton`: `cur` is `current_line_num`,
`last` is `last_line_num` (0 while no line has been retained). -/
def skelLoop (lineNumbers : Bool) (w : Nat) : List Str → Nat → Nat → List Str
  | [], _, _ => []
  | line :: rest, cur, last =>
    let stripped := pyStrip line
    if stripped = [] then skelLoop lineNumbers w rest (cur + 1) last
    else if isDefLine stripped then
      skelEmit lineNumbers w cur last line ++ skelLoop lineNumbers w rest (cur + 1) cur
    else if containsSub stripped ['='] ∧ ¬ isPfx ['#'] stripped then
      if isDeclLine line stripped then
        skelEmit lineNumbers w cur last line ++ skelLoop lineNumbers w rest (cur + 1) cur
      else skelLoop lineNumbers w rest (cur + 1) last
    else if isImportLine stripped then
      skelEmit lineNumbers w cur last line ++ skelLoop lineNumbers w rest (cur + 1) cur
    else skelLoop lineNumbers w rest (cur + 1) last

/-- `create_file_skeleton`: split the content on newlines, run the loop with
the numbering column width `len(str(len(lines)))`, and join the retained
rows with newlines. -/
def create_file_skeleton (content : Str) (lineNumbers : Bool) : Str :=
  let lines := pySplitChar '\n' content
  joinNl (skelLoop lineNumbers (natChars lines.length).length lines 1 0)

/-!
## File reading: `read_file_content` (utils.py, lines 79-104)

The filesystem is a finite association list from paths to the `readlines()`
decomposition of the file's text (each line keeps its trailing newline,
except possibly the last).  A missing key models any read error.
-/

/-- Look up a path in the modelled filesystem. -/
def fsLookup (fs : List (Str × List Str)) (p : Str) : Option (List Str) :=
  match fs.find? (fun e => decide (e.1 = p)) with
  | some e => some e.2
  | none => none

/-- The numbering loop of `read_file_content`: `for i, line in
enumerate(lines)` producing `f"{padded_num}|{line}"`. -/
def numberLines (padding : Nat) : Nat → List Str → List Str
  | _, [] => []
  | i, l :: rest =>
    (pyRjust (natChars (i + 1)) padding ++ '|' :: l) :: numberLines padding (i + 1) rest

/-- `read_file_content`: on any read error return the empty string;
otherwise return the joined lines, each prefixed with its right-aligned
1-based line number and `|` when `line_no` is set. -/
def read_file_content (fs : List (Str × List Str)) (p : Str) (lineNo : Bool) : Str :=
  match fsLookup fs p with
  | none => []
  | some ls =>
    if lineNo then pyJoin (numberLines (natChars ls.length).length 0 ls)
    else pyJoin ls

/-!
## Location resolution: the parsing loop of `locate_specific_lines`
(bug_localization.py, lines 163-250)

The oracle response is parsed line by line; the modelled filesystem carries,
for each path, both the raw lines and the walk sequence of its parse tree
(`locate_specific_lines` calls both `read_file_content` and
`extract_relevant_sections`).
-/

/-- A resolved edit location: a named function with its extracted section,
or a clamped line range with its numbered-content slice. -/
inductive Loc where
  | func (name : Str) (content : Str)
  | line (start stop : Nat) (content : Str)
  deriving DecidableEq, Repr

/-- Dict membership for the resolver's accumulator. -/
def hasKeyL (m : List (Str × List Loc)) (k : Str) : Bool :=
  m.any (fun p => decide (p.1 = k))

/-- `edit_locations[k].append(loc)`. -/
def appendLoc (m : List (Str × List Loc)) (k : Str) (loc : Loc) : List (Str × List Loc) :=
  match m with
  | [] => []
  | (a, b) :: t => if a = k then (a, b ++ [loc]) :: t else (a, b) :: appendLoc t k loc

/-- Dict lookup in the `code_elements` input. -/
def ceLookup (ce : List (Str × List Element)) (k : Str) : Option (List Element) :=
  match ce.find? (fun e => decide (e.1 = k)) with
  | some e => some e.2
  | none => none

/-- Python `int(s)` restricted to the unsigned decimal forms the pipeline
produces: optional surrounding whitespace around a non-empty digit string. -/
def parseNatStr (s : Str) : Option Nat :=
  let t := pyStrip s
  if t ≠ [] ∧ t.all isDigitCh then some (digitsVal t) else none

/-- The modelled filesystem of the resolver: raw lines plus walk sequence
per path. -/
abbrev ResolverFs := List (Str × (List Str × List PyNode))

/-- `extract_relevant_sections` as called by the resolver: read and parse
the file through the modelled filesystem (missing file yields `[]`, as the
source returns `[]` when the path does not exist). -/
def extractSectionsFs (fs : ResolverFs) (path : Str) (elements : List Element) (w : Nat) :
    List Str :=
  match fs.find? (fun e => decide (e.1 = path)) with
  | some e =>
    extract_relevant_sections ⟨pySplitChar '\n' (pyJoin e.2.1), e.2.2⟩ elements w
  | none => []

/-- `read_file_content` as called by the resolver (numbered output). -/
def readFileFs (fs : ResolverFs) (path : Str) : Str :=
  read_file_content (fs.map (fun e => (e.1, e.2.1))) path true

/-- One `function:`-line resolution step: look the file up in
`code_elements`, filter for a function element of that name, extract its
section, and append a `Loc.func` when a section was produced. -/
def resolveFuncLine (fs : ResolverFs) (ce : List (Str × List Element)) (w : Nat)
    (acc : List (Str × List Loc)) (cf : Option Str) (nm : Str) : List (Str × List Loc) :=
  match cf with
  | some c =>
    match ceLookup ce c with
    | some elems =>
      match elems.filter (fun e =>
          match e with
          | .func n => decide (n = pyStrip nm)
          | _ => false) with
      | m :: _ =>
        match extractSectionsFs fs c [m] w with
        | s :: _ => appendLoc acc c (.func (pyStrip nm) s)
        | [] => acc
      | [] => acc
    | none => acc
  | none => acc

/-- The line-by-line loop of `locate_specific_lines`.  Returning `acc`
without consuming the rest of the lines models the function-level
`except`, which logs and falls through to `return edit_locations`. -/
def lslLoop (fs : ResolverFs) (ce : List (Str × List Element)) (w : Nat) :
    List Str → Option Str → List (Str × List Loc) → List (Str × List Loc)
  | [], _, acc => acc
  | l :: rest, cf, acc =>
    let line := pyStrip l
    if line = [] then lslLoop fs ce w rest cf acc
    else if ¬ containsSub line [':'] then
      lslLoop fs ce w rest (some line)
        (if hasKeyL acc line then acc else acc ++ [(line, [])])
    else
      match pySplitSub1 line (chars ": ") with
      | [et, nm] =>
        if et = chars "function" then
          lslLoop fs ce w rest cf (resolveFuncLine fs ce w acc cf nm)
        else if isPfx (chars "line: ") line then
          match parseNatStr ((pySplitSub line (chars "line: ")).getD 1 []) with
          | none => lslLoop fs ce w rest cf acc
          | some lineNum =>
            match cf with
            | none => acc
            | some c =>
              let content := readFileFs fs c
              if content = [] then lslLoop fs ce w rest cf acc
              else
                let contentLines := pySplitChar '\n' content
                let startLine := max 1 (lineNum - w)
                let endLine := min contentLines.length (lineNum + w)
                lslLoop fs ce w rest cf (appendLoc acc c
                  (.line startLine endLine
                    (joinNl ((contentLines.drop (startLine - 1)).take
                      (endLine - (startLine - 1))))))
        else lslLoop fs ce w rest cf acc
      | _ => acc

/-- `locate_specific_lines`: take the first fenced segment of the response,
strip it, and run the line loop starting from an empty mapping and no
current file. -/
def locate_specific_lines (fs : ResolverFs) (ce : List (Str × List Element)) (w : Nat)
    (response : Str) : List (Str × List Loc) :=
  if containsSub response (chars "```") then
    match (pySplitSub response (chars "```")).get? 1 with
    | some c => lslLoop fs ce w (pySplitChar '\n' (pyStrip c)) none []
    | none => []
  else []

/-!
## Lemmas about the window scan
-/

/-- A successful window scan returns an in-range index whose stripped slice
matches, and no earlier in-range index matches. -/
theorem scanWindow_eq_some {lines : List Str} {n : Nat} {search : Str} :
    ∀ {count i j}, scanWindow lines n search i count = some j →
      i ≤ j ∧ j < i + count ∧ pyStrip (pyJoin ((lines.drop j).take n)) = search ∧
        ∀ m, i ≤ m → m < j → pyStrip (pyJoin ((lines.drop m).take n)) ≠ search := by
  intro count
  induction count with
  | zero => intro i j h; simp [scanWindow] at h
  | succ c ih =>
    intro i j h
    rw [scanWindow] at h
    by_cases hm : pyStrip (pyJoin ((lines.drop i).take n)) = search
    · simp [hm] at h
      subst h
      exact ⟨le_refl i, by omega, hm, fun m h1 h2 => absurd h1 (by omega)⟩
    · simp [hm] at h
      obtain ⟨h1, h2, h3, h4⟩ := ih h
      refine ⟨by omega, by omega, h3, fun m hm1 hm2 => ?_⟩
      rcases Nat.eq_or_lt_of_le hm1 with rfl | hlt
      · exact hm
      · exact h4 m hlt hm2

/-- If some in-range index has a matching stripped slice, the window scan
succeeds, at an index no later than that one. -/
theorem scanWindow_exists {lines : List Str} {n : Nat} {search : Str} :
    ∀ (count i j : Nat), i ≤ j → j < i + count →
      pyStrip (pyJoin ((lines.drop j).take n)) = search →
      ∃ k, scanWindow lines n search i count = some k ∧ k ≤ j := by
  intro count
  induction count with
  | zero => intro i j h1 h2; omega
  | succ c ih =>
    intro i j h1 h2 h3
    rw [scanWindow]
    by_cases hm : pyStrip (pyJoin ((lines.drop i).take n)) = search
    · exact ⟨i, by simp [hm], h1⟩
    · have hij : i ≠ j := fun h => hm (h ▸ h3)
      obtain ⟨k, hk, hkj⟩ := ih (i + 1) j (by omega) (by omega) h3
      exact ⟨k, by simp [hm, hk], hkj⟩

/-- An index at or past the end of the file has an empty slice, whose
stripped join is the empty string. -/
theorem pyStrip_slice_of_le {lines : List Str} {n i : Nat} (h : lines.length ≤ i) :
    pyStrip (pyJoin ((lines.drop i).take n)) = [] := by
  rw [List.drop_eq_nil_of_le h, List.take_nil]
  rfl

/-- For a hint `s ≥ 1`, the integer window arithmetic of `hintedFind`
agrees with the natural-number formulation. -/
theorem hintedFind_eq_scan {lines : List Str} {old : List Str} {s : Nat} (hs : 1 ≤ s) :
    hintedFind lines s old =
      scanWindow lines old.length (pyStrip (pyJoin old)) ((s - 1) - 2)
        (min lines.length ((s - 1) + old.length + 2) + 1 - old.length - ((s - 1) - 2)) := by
  show scanWindow _ _ _ _ _ = scanWindow _ _ _ _ _
  congr 1 <;> omega

/-- Claim C1: for an `EditOperation` carrying a line hint, `apply_patch_directly`
performs the hinted window search: candidate index `hint - 1`, slack of 2 lines
on each side, scanning every `len(old)`-sized slice of the window for a
stripped-text match and taking the first match; in particular an operation
whose `oldText` matches exactly at the hinted line is located by this step and
the hunk is applied there. -/
theorem C1_hinted_window_search (lines : List Str) (h : Hunk) (s : Nat)
    (hs : h.start = some s) (h1 : 1 ≤ s)
    (hm : pyStrip (pyJoin ((lines.drop (s - 1)).take h.old.length)) = pyStrip (pyJoin h.old))
    (hlen : s - 1 + h.old.length ≤ lines.length) :
    ∃ i, hintedFind lines s h.old = some i ∧
      pyStrip (pyJoin ((lines.drop i).take h.old.length)) = pyStrip (pyJoin h.old) ∧
      (s - 1) - 2 ≤ i ∧ i ≤ s - 1 ∧
      (∀ m, (s - 1) - 2 ≤ m → m < i →
        pyStrip (pyJoin ((lines.drop m).take h.old.length)) ≠ pyStrip (pyJoin h.old)) ∧
      applyHunk lines h = some (lines.take i ++ h.new ++ lines.drop (i + h.old.length)) := by
  rw [hintedFind_eq_scan h1]
  have hrange : (s - 1) - 2 ≤ s - 1 ∧
      s - 1 < (s - 1) - 2 +
        (min lines.length ((s - 1) + h.old.length + 2) + 1 - h.old.length - ((s - 1) - 2)) := by
    constructor <;> omega
  obtain ⟨k, hk, hkle⟩ := scanWindow_exists _ _ _ hrange.1 hrange.2 hm
  obtain ⟨hk1, _, hk3, hk4⟩ := scanWindow_eq_some hk
  refine ⟨k, hk, hk3, hk1, hkle, hk4, ?_⟩
  simp only [applyHunk, hs, hintedFind_eq_scan h1, hk]

/-- Witness for C1: a hunk hinted at line 2 whose old text sits exactly
there is located and applied. -/
theorem C1_witness :
    ∃ i, hintedFind [chars "a\n", chars "b\n", chars "c\n"] 2 [chars "b\n"] = some i ∧
      pyStrip (pyJoin (([chars "a\n", chars "b\n", chars "c\n"].drop i).take
        [chars "b\n"].length)) = pyStrip (pyJoin [chars "b\n"]) ∧
      (2 - 1) - 2 ≤ i ∧ i ≤ 2 - 1 ∧
      (∀ m, (2 - 1) - 2 ≤ m → m < i →
        pyStrip (pyJoin (([chars "a\n", chars "b\n", chars "c\n"].drop m).take
          [chars "b\n"].length)) ≠ pyStrip (pyJoin [chars "b\n"])) ∧
      applyHunk [chars "a\n", chars "b\n", chars "c\n"] ⟨some 2, [chars "b\n"], [chars "x\n"]⟩ =
        some ([chars "a\n", chars "b\n", chars "c\n"].take i ++ [chars "x\n"] ++
          [chars "a\n", chars "b\n", chars "c\n"].drop (i + [chars "b\n"].length)) :=
  C1_hinted_window_search [chars "a\n", chars "b\n", chars "c\n"]
    ⟨some 2, [chars "b\n"], [chars "x\n"]⟩ 2 rfl (by decide) (by decide) (by decide)

/-- Claim C2 is false: `oldText` `"x"` occurs exactly once in the file — at
line 8, outside the ±2 slack window around the hint at line 1 — yet
`apply_patch_directly` fails the hunk instead of falling back to the
whole-file substring search: the fallback runs only when no hint is present. -/
theorem C2_counterexample :
    applyHunk [chars "a\n", chars "b\n", chars "c\n", chars "d\n", chars "e\n",
        chars "f\n", chars "g\n", chars "x\n"] ⟨some 1, [chars "x\n"], [chars "y\n"]⟩ = none ∧
    firstIndexOf (pyJoin [chars "a\n", chars "b\n", chars "c\n", chars "d\n", chars "e\n",
        chars "f\n", chars "g\n", chars "x\n"]) (pyStrip (pyJoin [chars "x\n"])) = some 14 ∧
    applyHunk [chars "a\n", chars "b\n", chars "c\n", chars "d\n", chars "e\n",
        chars "f\n", chars "g\n", chars "x\n"] ⟨none, [chars "x\n"], [chars "y\n"]⟩ =
      some [chars "a\n", chars "b\n", chars "c\n", chars "d\n", chars "e\n",
        chars "f\n", chars "g\n", chars "y\n"] := by
  refine ⟨by decide, by decide, by decide⟩

/-- Claim C2 as amended: the whole-file substring fallback of
`apply_patch_directly` runs only for operations without a line hint; when the
hinted window search of a hinted operation fails, the operation fails with no
fallback, while a hintless operation is resolved by the substring search at
the line offset given by counting preceding newlines. -/
theorem C2_amended (lines old new : List Str) (s : Nat)
    (hfail : hintedFind lines s old = none) :
    applyHunk lines ⟨some s, old, new⟩ = none ∧
    ∀ pos, firstIndexOf (pyJoin lines) (pyStrip (pyJoin old)) = some pos →
      applyHunk lines ⟨none, old, new⟩ =
        some (lines.take (countNl ((pyJoin lines).take pos)) ++ new ++
          lines.drop (countNl ((pyJoin lines).take pos) + old.length)) := by
  constructor
  · simp only [applyHunk, hfail]
  · intro pos hpos
    simp only [applyHunk, hpos]

/-- Witness for the amended C2 at the counterexample file: the hinted hunk
fails outright and the hintless hunk is applied at line 8. -/
theorem C2_amended_witness :
    applyHunk [chars "a\n", chars "b\n", chars "c\n", chars "d\n", chars "e\n",
        chars "f\n", chars "g\n", chars "x\n"] ⟨some 1, [chars "x\n"], [chars "y\n"]⟩ = none ∧
    ∀ pos, firstIndexOf (pyJoin [chars "a\n", chars "b\n", chars "c\n", chars "d\n",
        chars "e\n", chars "f\n", chars "g\n", chars "x\n"])
        (pyStrip (pyJoin [chars "x\n"])) = some pos →
      applyHunk [chars "a\n", chars "b\n", chars "c\n", chars "d\n", chars "e\n",
          chars "f\n", chars "g\n", chars "x\n"] ⟨none, [chars "x\n"], [chars "y\n"]⟩ =
        some ([chars "a\n", chars "b\n", chars "c\n", chars "d\n", chars "e\n",
            chars "f\n", chars "g\n", chars "x\n"].take
            (countNl ((pyJoin [chars "a\n", chars "b\n", chars "c\n", chars "d\n", chars "e\n",
              chars "f\n", chars "g\n", chars "x\n"]).take pos)) ++ [chars "y\n"] ++
          [chars "a\n", chars "b\n", chars "c\n", chars "d\n", chars "e\n",
            chars "f\n", chars "g\n", chars "x\n"].drop
            (countNl ((pyJoin [chars "a\n", chars "b\n", chars "c\n", chars "d\n", chars "e\n",
              chars "f\n", chars "g\n", chars "x\n"]).take pos) + [chars "x\n"].length)) :=
  C2_amended [chars "a\n", chars "b\n", chars "c\n", chars "d\n", chars "e\n",
    chars "f\n", chars "g\n", chars "x\n"] [chars "x\n"] [chars "y\n"] 1 (by decide)

/-- When no slice of the file trim-matches the search text and the search
text is not a substring of the joined content, the fix loop of
`validate_fixes` scores 0 and writes the lines back unchanged, whichever
branch the (possibly absent) line hint selects. -/
theorem validateFix_no_match (lines : List Str) (fx : Fix)
    (hnm : ∀ i, pyStrip (pyJoin ((lines.drop i).take
      (pySplitlines (pyStrip fx.search)).length)) ≠ pyStrip fx.search)
    (hns : containsSub (pyJoin lines) (pyStrip fx.search) = false) :
    validateFix lines fx = (lines, 0) := by
  obtain ⟨sr, rp, ln⟩ := fx
  simp only at hnm hns
  match ln with
  | none => simp [validateFix, validateFallback, hns]
  | some ln =>
    by_cases h0 : ln = 0
    · subst h0
      simp [validateFix, validateFallback, hns]
    · simp only [validateFix]
      rw [if_neg h0]
      split
      · next i heq => exact absurd (scanWindow_eq_some heq).2.2.1 (hnm i)
      · rfl

/-- Claim C3: an `EditOperation` whose `oldText` cannot be located by either
search strategy (no window slice trim-matches it, and it is not a substring
of the file's joined content) is rejected with `score = 0` (the model of
`applied = false`) and the file content written back equals the content
read. -/
theorem C3_unlocated_unchanged (lines : List Str) (fx : Fix)
    (hnm : ∀ i, pyStrip (pyJoin ((lines.drop i).take
      (pySplitlines (pyStrip fx.search)).length)) ≠ pyStrip fx.search)
    (hns : containsSub (pyJoin lines) (pyStrip fx.search) = false) :
    validateFix lines fx = (lines, 0) :=
  validateFix_no_match lines fx hnm hns

/-- Witness for C3: the spec's own scenario — the cart file with
`oldText = "t -= i"`, a text absent from the file — is rejected and the
file is unchanged. -/
theorem C3_witness :
    validateFix [chars "def total(cart):\n", chars "    t = 0\n", chars "    for i in cart:\n",
        chars "        t += i\n", chars "    return t"]
      ⟨chars "t -= i", chars "x", none⟩ =
      ([chars "def total(cart):\n", chars "    t = 0\n", chars "    for i in cart:\n",
        chars "        t += i\n", chars "    return t"], 0) :=
  C3_unlocated_unchanged _ _
    (by
      intro i
      rcases Nat.lt_or_ge i 5 with h | h
      · interval_cases i <;> decide
      · rw [pyStrip_slice_of_le (by simpa using h)]
        decide)
    (by decide)

/-- Claim C9 is false: the operation `search = "a"`, `replace = "a"`,
hint line 1 matches the one-line file `"a\n"` exactly at its hint, and the
second application succeeds again (score 1) instead of failing with
`MatchNotFound` — the applier does apply the same patch twice when the
replaced text still matches `oldText`. -/
theorem C9_counterexample :
    validateFix [chars "a\n"] ⟨chars "a", chars "a", some 1⟩ = ([chars "a"], 1) ∧
    validateFix [chars "a"] ⟨chars "a", chars "a", some 1⟩ = ([chars "a"], 1) := by
  refine ⟨by decide, by decide⟩

/-- Claim C9 as amended: an operation whose `oldText` trim-matches a window
slice at its hint succeeds (score 1); re-applying the same operation fails
with score 0 and no modification provided `oldText` no longer matches any
slice of the updated file nor occurs in its joined content (without that
proviso the second application can succeed again, e.g. when `newText`
still contains `oldText`). -/
theorem C9_amended (lines : List Str) (fx : Fix) (ln : Nat)
    (hln : fx.lineNumber = some ln) (h0 : ln ≠ 0)
    (hmatch : ∃ j, (ln - 1) - 2 ≤ j ∧
      j < min lines.length ((ln - 1) + (pySplitlines (pyStrip fx.search)).length + 2) ∧
      pyStrip (pyJoin ((lines.drop j).take
        (pySplitlines (pyStrip fx.search)).length)) = pyStrip fx.search)
    (hafter : ∀ i, pyStrip (pyJoin (((validateFix lines fx).1.drop i).take
      (pySplitlines (pyStrip fx.search)).length)) ≠ pyStrip fx.search)
    (hafter2 : containsSub (pyJoin (validateFix lines fx).1) (pyStrip fx.search) = false) :
    (validateFix lines fx).2 = 1 ∧
    validateFix (validateFix lines fx).1 fx = ((validateFix lines fx).1, 0) := by
  refine ⟨?_, validateFix_no_match _ _ hafter hafter2⟩
  obtain ⟨sr, rp, lnum⟩ := fx
  simp only at hln hmatch
  subst hln
  obtain ⟨j, hj1, hj2, hj3⟩ := hmatch
  obtain ⟨k, hk, -⟩ := scanWindow_exists
    (min lines.length (ln - 1 + (pySplitlines (pyStrip sr)).length + 2) - (ln - 1 - 2))
    (ln - 1 - 2) j hj1 (by omega) hj3
  simp only [validateFix]
  rw [if_neg h0, hk]

/-- Witness for the amended C9: `search = "a"`, `replace = "c"` on the file
`"a\nb\n"`: the first application succeeds, the second finds nothing and
leaves the updated file unchanged. -/
theorem C9_amended_witness :
    (validateFix [chars "a\n", chars "b\n"] ⟨chars "a", chars "c", some 1⟩).2 = 1 ∧
    validateFix (validateFix [chars "a\n", chars "b\n"] ⟨chars "a", chars "c", some 1⟩).1
        ⟨chars "a", chars "c", some 1⟩ =
      ((validateFix [chars "a\n", chars "b\n"] ⟨chars "a", chars "c", some 1⟩).1, 0) :=
  C9_amended [chars "a\n", chars "b\n"] ⟨chars "a", chars "c", some 1⟩ 1 rfl (by decide)
    ⟨0, by decide, by decide, by decide⟩
    (by
      intro i
      rcases Nat.lt_or_ge i 2 with h | h
      · interval_cases i <;> decide
      · rw [pyStrip_slice_of_le (le_trans (by decide) h)]
        decide)
    (by decide)

/-!
## Hunk collection in `parse_patch_hunks`
-/

/-- What the line loop of `parse_patch_hunks` collects from a run of content
lines: the non-blank ones, in order, each with a newline appended. -/
def collectLines (ls : List Str) : List Str :=
  (ls.filter (fun l => decide (pyStrip l ≠ []))).map (fun l => l ++ ['\n'])

/-- A line that triggers none of the four marker branches of the loop. -/
def nonMarker (l : Str) : Prop :=
  isPfx (chars "### ") l = false ∧ containsSub l (chars "<<<<<<< SEARCH") = false ∧
    l ≠ chars "=======" ∧ isPfx (chars ">>>>>>> REPLACE") l = false

instance (l : Str) : Decidable (nonMarker l) := by
  unfold nonMarker; infer_instance

/-- On a non-marker line with an open hunk, the loop either skips a blank
line or appends the line (plus newline) to the side selected by `in_old`. -/
theorem ppLine_content (st : PState) (h : Hunk) (l : Str)
    (hnm : nonMarker l) (hch : st.currentHunk = some h) :
    ppLine st l =
      if pyStrip l = [] then st
      else if st.inOld then
        { st with currentHunk := some { h with old := h.old ++ [l ++ ['\n']] } }
      else { st with currentHunk := some { h with new := h.new ++ [l ++ ['\n']] } } := by
  obtain ⟨h1, h2, h3, h4⟩ := hnm
  simp only [ppLine, h1, h2, h3, h4, hch, Bool.false_eq_true, if_false, false_and, if_neg,
    not_false_eq_true]

/-- Folding the loop over non-marker lines while `in_old` holds appends
exactly the collected lines to the open hunk's old side. -/
theorem foldl_ppLine_old (ls : List Str) : ∀ (st : PState) (h : Hunk),
    (∀ l ∈ ls, nonMarker l) → st.currentHunk = some h → st.inOld = true →
    ls.foldl ppLine st =
      { st with currentHunk := some { h with old := h.old ++ collectLines ls } } := by
  induction ls with
  | nil =>
    intro st h _ hch _
    simp only [List.foldl_nil, collectLines, List.filter_nil, List.map_nil, List.append_nil]
    rw [← hch]
  | cons l ls ih =>
    intro st h hnm hch hio
    rw [List.foldl_cons, ppLine_content st h l (hnm l (by simp)) hch]
    by_cases hb : pyStrip l = []
    · rw [if_pos hb, ih st h (fun x hx => hnm x (by simp [hx])) hch hio]
      have : collectLines (l :: ls) = collectLines ls := by
        simp [collectLines, hb]
      rw [this]
    · rw [if_neg hb, if_pos (by rw [hio])]
      rw [ih { st with currentHunk := some { h with old := h.old ++ [l ++ ['\n']] } }
        { h with old := h.old ++ [l ++ ['\n']] }
        (fun x hx => hnm x (by simp [hx])) rfl hio]
      have : collectLines (l :: ls) = (l ++ ['\n']) :: collectLines ls := by
        simp [collectLines, hb]
      simp [this, List.append_assoc]

/-- Folding the loop over non-marker lines after the divider appends exactly
the collected lines to the open hunk's new side. -/
theorem foldl_ppLine_new (ls : List Str) : ∀ (st : PState) (h : Hunk),
    (∀ l ∈ ls, nonMarker l) → st.currentHunk = some h → st.inOld = false →
    ls.foldl ppLine st =
      { st with currentHunk := some { h with new := h.new ++ collectLines ls } } := by
  induction ls with
  | nil =>
    intro st h _ hch _
    simp only [List.foldl_nil, collectLines, List.filter_nil, List.map_nil, List.append_nil]
    rw [← hch]
  | cons l ls ih =>
    intro st h hnm hch hio
    rw [List.foldl_cons, ppLine_content st h l (hnm l (by simp)) hch]
    by_cases hb : pyStrip l = []
    · rw [if_pos hb, ih st h (fun x hx => hnm x (by simp [hx])) hch hio]
      have : collectLines (l :: ls) = collectLines ls := by
        simp [collectLines, hb]
      rw [this]
    · rw [if_neg hb, if_neg (by rw [hio]; exact Bool.false_ne_true)]
      rw [ih { st with currentHunk := some { h with new := h.new ++ [l ++ ['\n']] } }
        { h with new := h.new ++ [l ++ ['\n']] }
        (fun x hx => hnm x (by simp [hx])) rfl hio]
      have : collectLines (l :: ls) = (l ++ ['\n']) :: collectLines ls := by
        simp [collectLines, hb]
      simp [this, List.append_assoc]

/-- Claim C4 is false: `parse_patch_hunks` drops the internal blank line of
the SEARCH side — the block's lines `"    a"`, `""`, `"    b"` parse to
`oldText = ["    a\n", "    b\n"]`, not to the verbatim three-line text. -/
theorem C4_counterexample :
    (parse_patch_hunks (chars
        "```python\n### f.py\n<<<<<<< SEARCH\n    a\n\n    b\n=======\n    c\n>>>>>>> REPLACE\n")).files =
      [(chars "f.py",
        [⟨none, [chars "    a\n", chars "    b\n"], [chars "    c\n"]⟩])] ∧
    [chars "    a\n", chars "    b\n"] ≠ [chars "    a\n", chars "\n", chars "    b\n"] := by
  refine ⟨by decide, by decide⟩

/-- Claim C4 as amended: for a well-formed SEARCH/REPLACE block the parsed
`oldText` and `newText` are the block's non-blank lines in order, each kept
verbatim (indentation preserved) with a newline appended — every blank
line, leading, trailing or internal, is removed, not only the surrounding
ones. -/
theorem C4_amended (st : PState) (f : Str) (sl rl : Str) (oldL newL : List Str)
    (hcf : st.currentFile = some f) (hk : hasKey st.files f = true)
    (hch : st.currentHunk = none)
    (hsl1 : isPfx (chars "### ") sl = false)
    (hsl2 : containsSub sl (chars "<<<<<<< SEARCH") = true)
    (hrl : isPfx (chars ">>>>>>> REPLACE") rl = true)
    (hrl1 : isPfx (chars "### ") rl = false)
    (hrl2 : containsSub rl (chars "<<<<<<< SEARCH") = false)
    (hrl3 : rl ≠ chars "=======")
    (holdL : ∀ l ∈ oldL, nonMarker l) (hnewL : ∀ l ∈ newL, nonMarker l) :
    (sl :: (oldL ++ chars "=======" :: (newL ++ [rl]))).foldl ppLine st =
      { st with
        files := appendHunk st.files f
          ⟨searchLinePat sl, collectLines oldL, collectLines newL⟩,
        currentHunk := none, inOld := false } := by
  obtain ⟨files, cf, ch, io, er⟩ := st
  simp only at hcf hk hch
  subst hcf
  have h1 : ppLine ⟨files, some f, ch, io, er⟩ sl =
      ⟨files, some f, some ⟨searchLinePat sl, [], []⟩, true, er⟩ := by
    simp [ppLine, hsl1, hsl2]
  have h2 : ppLine ⟨files, some f, some ⟨searchLinePat sl, collectLines oldL, []⟩, true, er⟩
      (chars "=======") =
      ⟨files, some f, some ⟨searchLinePat sl, collectLines oldL, []⟩, false, er⟩ := by
    simp +decide [ppLine]
  have h3 : ppLine ⟨files, some f,
      some ⟨searchLinePat sl, collectLines oldL, collectLines newL⟩, false, er⟩ rl =
      ⟨appendHunk files f ⟨searchLinePat sl, collectLines oldL, collectLines newL⟩,
        some f, none, false, er⟩ := by
    simp [ppLine, hrl, hrl1, hrl2, hrl3, hk]
  have s1 : (sl :: (oldL ++ chars "=======" :: (newL ++ [rl]))).foldl ppLine
      ⟨files, some f, ch, io, er⟩ =
      (oldL ++ chars "=======" :: (newL ++ [rl])).foldl ppLine
        ⟨files, some f, some ⟨searchLinePat sl, [], []⟩, true, er⟩ := by
    rw [List.foldl_cons, h1]
  have s2 : (oldL ++ chars "=======" :: (newL ++ [rl])).foldl ppLine
      ⟨files, some f, some ⟨searchLinePat sl, [], []⟩, true, er⟩ =
      (chars "=======" :: (newL ++ [rl])).foldl ppLine
        ⟨files, some f, some ⟨searchLinePat sl, collectLines oldL, []⟩, true, er⟩ := by
    rw [List.foldl_append,
      foldl_ppLine_old oldL _ ⟨searchLinePat sl, [], []⟩ holdL rfl rfl]
    exact rfl
  have s3 : (chars "=======" :: (newL ++ [rl])).foldl ppLine
      ⟨files, some f, some ⟨searchLinePat sl, collectLines oldL, []⟩, true, er⟩ =
      (newL ++ [rl]).foldl ppLine
        ⟨files, some f, some ⟨searchLinePat sl, collectLines oldL, []⟩, false, er⟩ := by
    rw [List.foldl_cons, h2]
  have s4 : (newL ++ [rl]).foldl ppLine
      ⟨files, some f, some ⟨searchLinePat sl, collectLines oldL, []⟩, false, er⟩ =
      [rl].foldl ppLine ⟨files, some f,
        some ⟨searchLinePat sl, collectLines oldL, collectLines newL⟩, false, er⟩ := by
    rw [List.foldl_append,
      foldl_ppLine_new newL _ ⟨searchLinePat sl, collectLines oldL, []⟩ hnewL rfl rfl]
    exact rfl
  have s5 : [rl].foldl ppLine ⟨files, some f,
      some ⟨searchLinePat sl, collectLines oldL, collectLines newL⟩, false, er⟩ =
      ⟨appendHunk files f ⟨searchLinePat sl, collectLines oldL, collectLines newL⟩,
        some f, none, false, er⟩ := by
    rw [List.foldl_cons, List.foldl_nil, h3]
  exact s1.trans (s2.trans (s3.trans (s4.trans s5)))

/-- Witness for the amended C4 at the counterexample block: the collected
old side is the two non-blank lines with their indentation. -/
theorem C4_amended_witness :
    ((chars "<<<<<<< SEARCH") :: ([chars "    a", chars "", chars "    b"] ++
        chars "=======" :: ([chars "    c"] ++ [chars ">>>>>>> REPLACE"]))).foldl ppLine
      ⟨[(chars "f.py", [])], some (chars "f.py"), none, false, false⟩ =
      { (⟨[(chars "f.py", [])], some (chars "f.py"), none, false, false⟩ : PState) with
        files := appendHunk [(chars "f.py", [])] (chars "f.py")
          ⟨searchLinePat (chars "<<<<<<< SEARCH"),
            collectLines [chars "    a", chars "", chars "    b"],
            collectLines [chars "    c"]⟩,
        currentHunk := none, inOld := false } :=
  C4_amended ⟨[(chars "f.py", [])], some (chars "f.py"), none, false, false⟩
    (chars "f.py") (chars "<<<<<<< SEARCH") (chars ">>>>>>> REPLACE")
    [chars "    a", chars "", chars "    b"] [chars "    c"]
    rfl (by decide) rfl (by decide) (by decide) (by decide) (by decide) (by decide)
    (by decide) (by decide) (by decide)

/-!
## Symbol locator claims
-/

/-- A fourteen-line file used to exercise the symbol locator. -/
def linesL : List Str :=
  [chars "L01", chars "L02", chars "L03", chars "L04", chars "L05", chars "L06", chars "L07",
   chars "L08", chars "L09", chars "L10", chars "L11", chars "L12", chars "L13", chars "L14"]

/-- Claim C5 is false for the pipeline's locator: for `def foo` spanning
lines 10-12, utils.py `extract_relevant_sections` with `W = 0` does not
return exactly lines 10-12 joined by newline — it wraps them in a
`=== Function: foo ===` header row and two 40-dash delimiter rows. -/
theorem C5_counterexample :
    extract_relevant_sections ⟨linesL, [⟨.functionDef (chars "foo"), 10, 12⟩]⟩
        [.func (chars "foo")] 0 =
      [joinNl (chars "=== Function: foo ===" :: dashes ::
        [chars "L10", chars "L11", chars "L12", dashes])] ∧
    [joinNl (chars "=== Function: foo ===" :: dashes ::
        [chars "L10", chars "L11", chars "L12", dashes])] ≠
      [joinNl [chars "L10", chars "L11", chars "L12"]] := by
  refine ⟨by decide, by decide⟩

/-- Claim C5 as amended: for the first matching function node the utils.py
locator returns the context-clamped span `[lineno-1-W, min(len, end+W))`
joined by newline and wrapped between a labeled header row and 40-dash
delimiter rows, while the grain.py variant returns exactly the clamped span
joined by newline and nothing more. -/
theorem C5_amended (lines : List Str) (walk : List PyNode) (name : Str) (w : Nat) (nd : PyNode)
    (h1 : walk.find? (matchesFunc name) = some nd)
    (h2 : walk.find? (matchesFuncGrain name) = some nd) :
    extract_relevant_sections ⟨lines, walk⟩ [.func name] w =
      [joinNl ((chars "=== Function: " ++ name ++ chars " ===") :: dashes ::
        (spanSlice lines nd w ++ [dashes]))] ∧
    extractFuncGrain lines walk name w = [joinNl (spanSlice lines nd w)] := by
  constructor
  · simp [extract_relevant_sections, extractFuncUtils, h1]
  · simp [extractFuncGrain, h2]

/-- Witness for the amended C5: `def foo` at lines 10-12 of the 14-line
file with `W = 2` — the span clamps to lines 8-14. -/
theorem C5_amended_witness :
    extract_relevant_sections ⟨linesL, [⟨.functionDef (chars "foo"), 10, 12⟩]⟩
        [.func (chars "foo")] 2 =
      [joinNl ((chars "=== Function: " ++ chars "foo" ++ chars " ===") :: dashes ::
        (spanSlice linesL ⟨.functionDef (chars "foo"), 10, 12⟩ 2 ++ [dashes]))] ∧
    extractFuncGrain linesL [⟨.functionDef (chars "foo"), 10, 12⟩] (chars "foo") 2 =
      [joinNl (spanSlice linesL ⟨.functionDef (chars "foo"), 10, 12⟩ 2)] :=
  C5_amended linesL [⟨.functionDef (chars "foo"), 10, 12⟩] (chars "foo") 2
    ⟨.functionDef (chars "foo"), 10, 12⟩ (by decide) (by decide)

/-- Claim C8 is false: for a file with two plain assignments to `x`, a
`variable` lookup appends one excerpt per matching assignment node — the
locator returns two excerpts, not exactly one. -/
theorem C8_counterexample :
    (extract_relevant_sections ⟨[chars "x = 1", chars "x = 2"],
        [⟨.assign [some (chars "x")], 1, 1⟩, ⟨.assign [some (chars "x")], 2, 2⟩]⟩
      [.var (chars "x")] 0).length = 2 := by
  decide

/-- Does a node match the variable lookup as a plain assignment with a
`Name` target of the requested name? -/
def isMatchingAssign (name : Str) (nd : PyNode) : Bool :=
  match nd.kind with
  | .assign ts => ts.any (fun t => decide (t = some name))
  | _ => false

/-- Over a walk consisting only of matching plain assignments, the variable
lookup emits one excerpt per node. -/
theorem extractVarUtils_length_all_assign (lines : List Str) (name : Str) (w : Nat) :
    ∀ (walkA : List PyNode), walkA.all (isMatchingAssign name) = true →
      ∀ acc, (extractVarUtils lines name w walkA acc).length = walkA.length := by
  intro walkA
  induction walkA with
  | nil => intro _ acc; rfl
  | cons nd rest ih =>
    intro hall acc
    rw [List.all_cons, Bool.and_eq_true] at hall
    obtain ⟨h1, h2⟩ := hall
    obtain ⟨k, a, b⟩ := nd
    cases k with
    | assign ts =>
      simp only [isMatchingAssign] at h1
      simp only [extractVarUtils, h1, if_true, List.length_cons, ih h2]
    | functionDef n => simp [isMatchingAssign] at h1
    | asyncFunctionDef n => simp [isMatchingAssign] at h1
    | classDef n => simp [isMatchingAssign] at h1
    | annAssign t => simp [isMatchingAssign] at h1
    | other => simp [isMatchingAssign] at h1

/-- Claim C8 as amended: function and class lookups use only the first
matching node of the walk sequence and return at most one excerpt, but a
variable lookup over plain assignment nodes appends one excerpt per
matching node (its `break` only leaves the inner target loop), stopping
early only at a matching annotated assignment. -/
theorem C8_amended (lines : List Str) (walk walkA : List PyNode) (name : Str) (w : Nat)
    (acc : List Str) (hall : walkA.all (isMatchingAssign name) = true) :
    (extractFuncUtils lines walk name w).length ≤ 1 ∧
    (extractClassUtils lines walk name w).length ≤ 1 ∧
    (extractVarUtils lines name w walkA acc).length = walkA.length := by
  refine ⟨?_, ?_, extractVarUtils_length_all_assign lines name w walkA hall acc⟩
  · unfold extractFuncUtils
    cases walk.find? (matchesFunc name) <;> simp
  · unfold extractClassUtils
    cases walk.find? (matchesClass name) <;> simp

/-- Witness for the amended C8 at the two-assignment file: two excerpts. -/
theorem C8_amended_witness :
    (extractFuncUtils [chars "x = 1", chars "x = 2"]
      [⟨.assign [some (chars "x")], 1, 1⟩, ⟨.assign [some (chars "x")], 2, 2⟩]
      (chars "x") 0).length ≤ 1 ∧
    (extractClassUtils [chars "x = 1", chars "x = 2"]
      [⟨.assign [some (chars "x")], 1, 1⟩, ⟨.assign [some (chars "x")], 2, 2⟩]
      (chars "x") 0).length ≤ 1 ∧
    (extractVarUtils [chars "x = 1", chars "x = 2"] (chars "x") 0
      [⟨.assign [some (chars "x")], 1, 1⟩, ⟨.assign [some (chars "x")], 2, 2⟩] []).length =
      [(⟨.assign [some (chars "x")], 1, 1⟩ : PyNode), ⟨.assign [some (chars "x")], 2, 2⟩].length :=
  C8_amended [chars "x = 1", chars "x = 2"]
    [⟨.assign [some (chars "x")], 1, 1⟩, ⟨.assign [some (chars "x")], 2, 2⟩]
    [⟨.assign [some (chars "x")], 1, 1⟩, ⟨.assign [some (chars "x")], 2, 2⟩]
    (chars "x") 0 [] (by decide)

/-!
## Location resolver claims
-/

/-- `appendLoc` neither adds nor removes keys. -/
theorem hasKeyL_appendLoc (m : List (Str × List Loc)) (k' : Str) (loc : Loc) (k : Str) :
    hasKeyL (appendLoc m k' loc) k = hasKeyL m k := by
  induction m with
  | nil => rfl
  | cons p t ih =>
    obtain ⟨a, b⟩ := p
    simp only [appendLoc]
    by_cases h : a = k'
    · rw [if_pos h]
      simp [hasKeyL]
    · rw [if_neg h]
      simp only [hasKeyL, List.any_cons] at ih ⊢
      rw [ih]

/-- `resolveFuncLine` preserves every key of the accumulator. -/
theorem hasKeyL_resolveFuncLine (fs : ResolverFs) (ce : List (Str × List Element)) (w : Nat)
    (acc : List (Str × List Loc)) (cf : Option Str) (nm : Str) (k : Str)
    (h : hasKeyL acc k = true) :
    hasKeyL (resolveFuncLine fs ce w acc cf nm) k = true := by
  unfold resolveFuncLine
  repeat' split
  all_goals simp [hasKeyL_appendLoc, h]

/-- A key present before an append is present after it. -/
theorem hasKeyL_append_left (acc m : List (Str × List Loc)) (k : Str)
    (h : hasKeyL acc k = true) : hasKeyL (acc ++ m) k = true := by
  unfold hasKeyL at h ⊢
  rw [List.any_append, h, Bool.true_or]

/-- Appending a fresh entry makes its key present. -/
theorem hasKeyL_append_self (acc : List (Str × List Loc)) (x : Str) (v : List Loc) :
    hasKeyL (acc ++ [(x, v)]) x = true := by
  unfold hasKeyL
  rw [List.any_append]
  simp

/-- The resolver loop never removes a key from its accumulator. -/
theorem lslLoop_keys_mono (fs : ResolverFs) (ce : List (Str × List Element)) (w : Nat) :
    ∀ (ls : List Str) (cf : Option Str) (acc : List (Str × List Loc)) (k : Str),
      hasKeyL acc k = true → hasKeyL (lslLoop fs ce w ls cf acc) k = true := by
  intro ls
  induction ls with
  | nil => intro cf acc k h; exact h
  | cons l rest ih =>
    intro cf acc k h
    rw [lslLoop]
    repeat' split
    all_goals
      first
      | exact h
      | exact ih _ _ _ h
      | exact ih _ _ _ (hasKeyL_append_left _ _ _ h)
      | exact ih _ _ _ (hasKeyL_resolveFuncLine fs ce w acc _ _ k h)
      | exact ih _ _ _ ((hasKeyL_appendLoc _ _ _ _).trans h)
      | (simp only []
         split
         · exact ih _ _ _ h
         · exact ih _ _ _ ((hasKeyL_appendLoc _ _ _ _).trans h))

/-- Claim C6 is false: with empty `code_elements` and a response naming
`foo.py` followed by an unresolvable `function: bar` descriptor,
`locate_specific_lines` returns `foo.py` bound to the empty list — files
with zero resolved locations are present as empty-list entries, not
omitted. -/
theorem C6_counterexample :
    locate_specific_lines [] [] 0 (chars "```\nfoo.py\nfunction: bar\n```") =
      [(chars "foo.py", [])] := by
  decide

/-- Claim C6 as amended: a file named by a header line of the response is
inserted into the mapping as soon as the header is processed (with an empty
location list) and is never removed afterwards, so a file whose descriptors
all fail to resolve remains in the result bound to the empty list; only
files never named by a header line are absent. -/
theorem C6_amended (fs : ResolverFs) (ce : List (Str × List Element)) (w : Nat)
    (l : Str) (rest : List Str) (cf : Option Str) (acc : List (Str × List Loc))
    (hne : pyStrip l ≠ []) (hnc : containsSub (pyStrip l) [':'] = false) :
    hasKeyL (lslLoop fs ce w (l :: rest) cf acc) (pyStrip l) = true ∧
    ∀ k, hasKeyL acc k = true → hasKeyL (lslLoop fs ce w (l :: rest) cf acc) k = true := by
  have step : lslLoop fs ce w (l :: rest) cf acc =
      lslLoop fs ce w rest (some (pyStrip l))
        (if hasKeyL acc (pyStrip l) then acc else acc ++ [(pyStrip l, [])]) := by
    rw [lslLoop, if_neg hne, if_pos (by simp [hnc])]
  constructor
  · rw [step]
    apply lslLoop_keys_mono
    by_cases hk : hasKeyL acc (pyStrip l) = true
    · rw [if_pos hk]; exact hk
    · rw [if_neg hk]
      exact hasKeyL_append_self acc (pyStrip l) []
  · intro k hk
    rw [step]
    apply lslLoop_keys_mono
    split
    · exact hk
    · exact hasKeyL_append_left acc _ k hk

/-- Witness for the amended C6 at the counterexample response lines:
`foo.py` ends up in the mapping and stays there. -/
theorem C6_amended_witness :
    hasKeyL (lslLoop [] [] 0 [chars "foo.py", chars "function: bar"] none [])
        (pyStrip (chars "foo.py")) = true ∧
    ∀ k, hasKeyL [] k = true →
      hasKeyL (lslLoop [] [] 0 [chars "foo.py", chars "function: bar"] none []) k = true :=
  C6_amended [] [] 0 (chars "foo.py") [chars "function: bar"] none [] (by decide) (by decide)

/-!
## Skeletonizer claims
-/

/-- Specification-side companion of `skelLoop`: the `(line number, line)`
pairs the loop retains, with the same retention conditions and counter. -/
def skelPairs : List Str → Nat → List (Nat × Str)
  | [], _ => []
  | line :: rest, cur =>
    let stripped := pyStrip line
    if stripped = [] then skelPairs rest (cur + 1)
    else if isDefLine stripped then (cur, line) :: skelPairs rest (cur + 1)
    else if containsSub stripped ['='] ∧ ¬ isPfx ['#'] stripped then
      if isDeclLine line stripped then (cur, line) :: skelPairs rest (cur + 1)
      else skelPairs rest (cur + 1)
    else if isImportLine stripped then (cur, line) :: skelPairs rest (cur + 1)
    else skelPairs rest (cur + 1)

/-- A rendered numbered row is never the ellipsis row: it contains `|`,
which the ellipsis row does not. -/
theorem skelRow_ne_gap (w n : Nat) (l : Str) : skelRow true w n l ≠ skelGap true w := by
  intro h
  have h1 : '|' ∈ skelRow true w n l := by
    simp [skelRow, pyRjust]
  rw [h] at h1
  rw [skelGap] at h1
  simp only [if_true, List.mem_append, List.mem_replicate] at h1
  rcases h1 with h1 | h1
  · revert h1; decide
  · exact absurd h1.2 (by decide)

/-- Filtering the ellipsis rows out of the numbered skeleton leaves exactly
the rendered retained pairs. -/
theorem skelLoop_filter (w : Nat) : ∀ (rest : List Str) (cur last : Nat),
    (skelLoop true w rest cur last).filter (fun r => decide (r ≠ skelGap true w)) =
      (skelPairs rest cur).map (fun p => skelRow true w p.1 p.2) := by
  have hemit : ∀ cur last l, (skelEmit true w cur last l).filter
      (fun r => decide (r ≠ skelGap true w)) = [skelRow true w cur l] := by
    intro cur last l
    rw [skelEmit]
    split
    · simp [List.filter, skelRow_ne_gap w cur l]
    · simp [List.filter, skelRow_ne_gap w cur l]
  intro rest
  induction rest with
  | nil => intro cur last; rfl
  | cons l rest ih =>
    intro cur last
    rw [skelLoop, skelPairs]
    by_cases h1 : pyStrip l = []
    · rw [if_pos h1, if_pos h1, ih]
    · rw [if_neg h1, if_neg h1]
      by_cases h2 : isDefLine (pyStrip l) = true
      · rw [if_pos h2, if_pos h2, List.filter_append, hemit, ih, List.map_cons]
        rfl
      · rw [if_neg h2, if_neg h2]
        by_cases h3 : containsSub (pyStrip l) ['='] = true ∧ ¬ isPfx ['#'] (pyStrip l) = true
        · rw [if_pos h3, if_pos h3]
          by_cases h4 : isDeclLine l (pyStrip l) = true
          · rw [if_pos h4, if_pos h4, List.filter_append, hemit, ih, List.map_cons]
            rfl
          · rw [if_neg h4, if_neg h4, ih]
        · rw [if_neg h3, if_neg h3]
          by_cases h5 : isImportLine (pyStrip l) = true
          · rw [if_pos h5, if_pos h5, List.filter_append, hemit, ih, List.map_cons]
            rfl
          · rw [if_neg h5, if_neg h5, ih]

/-- Every retained pair points at its own line: the recorded number is at
least the current counter and indexes the remaining lines correctly. -/
theorem skelPairs_pos : ∀ (rest : List Str) (cur : Nat),
    ∀ p ∈ skelPairs rest cur, cur ≤ p.1 ∧ rest[p.1 - cur]? = some p.2 := by
  intro rest
  induction rest with
  | nil => intro cur p hp; simp [skelPairs] at hp
  | cons l rest ih =>
    intro cur p hp
    have hstep : ∀ q, q ∈ skelPairs rest (cur + 1) →
        cur ≤ q.1 ∧ (l :: rest)[q.1 - cur]? = some q.2 := by
      intro q hq
      obtain ⟨hq1, hq2⟩ := ih (cur + 1) q hq
      refine ⟨by omega, ?_⟩
      have : q.1 - cur = (q.1 - (cur + 1)) + 1 := by omega
      rw [this, List.getElem?_cons_succ]
      exact hq2
    have hself : ∀ q, q = (cur, l) →
        cur ≤ q.1 ∧ (l :: rest)[q.1 - cur]? = some q.2 := by
      rintro q rfl
      simp
    rw [skelPairs] at hp
    by_cases h1 : pyStrip l = []
    · rw [if_pos h1] at hp; exact hstep p hp
    · rw [if_neg h1] at hp
      by_cases h2 : isDefLine (pyStrip l) = true
      · rw [if_pos h2] at hp
        rcases List.mem_cons.mp hp with h | h
        · exact hself p h
        · exact hstep p h
      · rw [if_neg h2] at hp
        by_cases h3 : containsSub (pyStrip l) ['='] = true ∧ ¬ isPfx ['#'] (pyStrip l) = true
        · rw [if_pos h3] at hp
          by_cases h4 : isDeclLine l (pyStrip l) = true
          · rw [if_pos h4] at hp
            rcases List.mem_cons.mp hp with h | h
            · exact hself p h
            · exact hstep p h
          · rw [if_neg h4] at hp; exact hstep p hp
        · rw [if_neg h3] at hp
          by_cases h5 : isImportLine (pyStrip l) = true
          · rw [if_pos h5] at hp
            rcases List.mem_cons.mp hp with h | h
            · exact hself p h
            · exact hstep p h
          · rw [if_neg h5] at hp; exact hstep p hp

/-- The retained line numbers are strictly increasing. -/
theorem skelPairs_chain : ∀ (rest : List Str) (cur : Nat),
    List.Chain' (· < ·) ((skelPairs rest cur).map Prod.fst) := by
  have hhead : ∀ (rest : List Str) (cur : Nat) (b : Nat),
      b ∈ ((skelPairs rest cur).map Prod.fst).head? → cur ≤ b := by
    intro rest cur b hb
    cases hsp : skelPairs rest cur with
    | nil => rw [hsp] at hb; simp at hb
    | cons q t =>
      rw [hsp] at hb
      simp only [List.map_cons, List.head?_cons, Option.mem_def, Option.some.injEq] at hb
      subst hb
      exact (skelPairs_pos rest cur q (by rw [hsp]; exact List.mem_cons_self q t)).1
  intro rest
  induction rest with
  | nil => intro cur; simp [skelPairs]
  | cons l rest ih =>
    intro cur
    have hcons : List.Chain' (· < ·) (((cur, l) :: skelPairs rest (cur + 1)).map Prod.fst) := by
      rw [List.map_cons]
      rw [List.chain'_cons']
      refine ⟨fun b hb => ?_, ih (cur + 1)⟩
      have := hhead rest (cur + 1) b hb
      omega
    rw [skelPairs]
    by_cases h1 : pyStrip l = []
    · rw [if_pos h1]; exact ih (cur + 1)
    · rw [if_neg h1]
      by_cases h2 : isDefLine (pyStrip l) = true
      · rw [if_pos h2]; exact hcons
      · rw [if_neg h2]
        by_cases h3 : containsSub (pyStrip l) ['='] = true ∧ ¬ isPfx ['#'] (pyStrip l) = true
        · rw [if_pos h3]
          by_cases h4 : isDeclLine l (pyStrip l) = true
          · rw [if_pos h4]; exact hcons
          · rw [if_neg h4]; exact ih (cur + 1)
        · rw [if_neg h3]
          by_cases h5 : isImportLine (pyStrip l) = true
          · rw [if_pos h5]; exact hcons
          · rw [if_neg h5]; exact ih (cur + 1)

/-- Claim C7: every retained row of the numbered skeleton is the rendering
of a pair whose recorded 1-based line number indexes the original line
verbatim, and the recorded numbers are strictly increasing; the skeleton's
rows are exactly the rendered pairs interleaved with ellipsis rows. -/
theorem C7_skeleton_subsequence (content : Str) :
    create_file_skeleton content true =
      joinNl (skelLoop true (natChars (pySplitChar '\n' content).length).length
        (pySplitChar '\n' content) 1 0) ∧
    (skelLoop true (natChars (pySplitChar '\n' content).length).length
        (pySplitChar '\n' content) 1 0).filter
        (fun r => decide (r ≠ skelGap true (natChars (pySplitChar '\n' content).length).length)) =
      (skelPairs (pySplitChar '\n' content) 1).map
        (fun p => skelRow true (natChars (pySplitChar '\n' content).length).length p.1 p.2) ∧
    (∀ p ∈ skelPairs (pySplitChar '\n' content) 1,
      (pySplitChar '\n' content)[p.1 - 1]? = some p.2) ∧
    List.Chain' (· < ·) ((skelPairs (pySplitChar '\n' content) 1).map Prod.fst) :=
  ⟨rfl, skelLoop_filter _ _ 1 0,
    fun p hp => (skelPairs_pos (pySplitChar '\n' content) 1 p hp).2,
    skelPairs_chain (pySplitChar '\n' content) 1⟩

/-- Witness for C7 on a concrete file with an import, a blank gap and a
definition. -/
theorem C7_witness :
    create_file_skeleton (chars "import os\n\nx = 1\n\ndef f():\n    pass") true =
      joinNl (skelLoop true
        (natChars (pySplitChar '\n' (chars "import os\n\nx = 1\n\ndef f():\n    pass")).length).length
        (pySplitChar '\n' (chars "import os\n\nx = 1\n\ndef f():\n    pass")) 1 0) ∧
    (skelLoop true
        (natChars (pySplitChar '\n' (chars "import os\n\nx = 1\n\ndef f():\n    pass")).length).length
        (pySplitChar '\n' (chars "import os\n\nx = 1\n\ndef f():\n    pass")) 1 0).filter
        (fun r => decide (r ≠ skelGap true
          (natChars (pySplitChar '\n'
            (chars "import os\n\nx = 1\n\ndef f():\n    pass")).length).length)) =
      (skelPairs (pySplitChar '\n' (chars "import os\n\nx = 1\n\ndef f():\n    pass")) 1).map
        (fun p => skelRow true
          (natChars (pySplitChar '\n'
            (chars "import os\n\nx = 1\n\ndef f():\n    pass")).length).length p.1 p.2) ∧
    (∀ p ∈ skelPairs (pySplitChar '\n' (chars "import os\n\nx = 1\n\ndef f():\n    pass")) 1,
      (pySplitChar '\n' (chars "import os\n\nx = 1\n\ndef f():\n    pass"))[p.1 - 1]? = some p.2) ∧
    List.Chain' (· < ·)
      ((skelPairs (pySplitChar '\n' (chars "import os\n\nx = 1\n\ndef f():\n    pass")) 1).map
        Prod.fst) :=
  C7_skeleton_subsequence (chars "import os\n\nx = 1\n\ndef f():\n    pass")

/-!
## File reading claims
-/

/-- The numbering loop equals an index-parameterised map over the lines. -/
theorem numberLines_eq_mapIdx (padding : Nat) :
    ∀ (ls : List Str) (i : Nat), numberLines padding i ls =
      ls.mapIdx (fun j l => pyRjust (natChars (i + j + 1)) padding ++ '|' :: l) := by
  intro ls
  induction ls with
  | nil => intro i; rfl
  | cons l rest ih =>
    intro i
    rw [numberLines, List.mapIdx_cons, ih (i + 1)]
    refine congrArg₂ _ (by rw [Nat.add_zero]) ?_
    refine congrArg₂ _ ?_ rfl
    funext j x
    rw [show i + 1 + j + 1 = i + (j + 1) + 1 by omega]

/-- Claim C10: `read_file_content` is total — any read failure yields the
empty string rather than an exception — and on success with numbering, the
output is exactly each source line prefixed by its right-aligned 1-based
line number and a `|` separator, the original line text following the
separator unaltered. -/
theorem C10_read_file_content (fs : List (Str × List Str)) (p : Str) :
    (fsLookup fs p = none →
      read_file_content fs p true = [] ∧ read_file_content fs p false = []) ∧
    (∀ ls, fsLookup fs p = some ls →
      read_file_content fs p true =
        pyJoin (ls.mapIdx (fun i l =>
          pyRjust (natChars (i + 1)) (natChars ls.length).length ++ '|' :: l))) := by
  constructor
  · intro h
    rw [read_file_content, read_file_content, h]
    exact ⟨rfl, rfl⟩
  · intro ls h
    rw [read_file_content, h]
    simp only [if_true]
    rw [numberLines_eq_mapIdx]
    refine congrArg _ ?_
    refine congrArg₂ _ ?_ rfl
    funext j l
    rw [Nat.zero_add]

/-- Witness for C10: a missing path yields the empty string, and a two-line
file is numbered with right-aligned indices and the `|` separator. -/
theorem C10_witness :
    (read_file_content [(chars "f.py", [chars "a\n", chars "bc"])] (chars "g.py") true = [] ∧
      read_file_content [(chars "f.py", [chars "a\n", chars "bc"])] (chars "g.py") false = []) ∧
    read_file_content [(chars "f.py", [chars "a\n", chars "bc"])] (chars "f.py") true =
      pyJoin ([chars "a\n", chars "bc"].mapIdx (fun i l =>
        pyRjust (natChars (i + 1)) (natChars ([chars "a\n", chars "bc"] : List Str).length).length
          ++ '|' :: l)) :=
  ⟨(C10_read_file_content [(chars "f.py", [chars "a\n", chars "bc"])] (chars "g.py")).1 rfl,
    (C10_read_file_content [(chars "f.py", [chars "a\n", chars "bc"])] (chars "f.py")).2
      [chars "a\n", chars "bc"] rfl⟩

end AgentlessLite
